import Mathlib

/-!
Verification of the category-usage-count synchronizer, the dashboard
aggregation helpers, and the enquiry response sub-ledger of a small
CRUD administration backend (products / categories / enquiries /
dashboard), shallowly embedded from the JavaScript source.

Sources embedded here:
* `src/models/Product.js` — the three mongoose document-lifecycle hooks
  maintaining `Category.usageCount` (`post('save')`,
  `pre('findOneAndUpdate')`, `post('findOneAndDelete')`);
* the product controller — create / patch / delete / bulkDelete;
* `src/controller/categoryController.js` — `updateCategory` (rename),
  `deleteCategory`, `addResponse`;
* `src/controller/dashboardController.js` — `generateTrend`,
  `calculateChange`, `calculateSuccessRate`.
-/

namespace YashEng

/-- The sentinel category name, exempt from usage-count tracking. -/
def sentinel : String := "Uncategorized"

/-- The Category collection restricted to `type = "product"`: an association
list from category name to `usageCount`.  All synchronizer operations filter
on `type: 'product'`, so one namespace suffices.  `usageCount` is an `Int`
because `$inc` has no floor. -/
abbrev Cats := List (String × Int)

/-- The Product collection: `(_id, category)` pairs.  Only the `category`
field matters to the claims considered here. -/
abbrev Prods := List (Nat × String)

/-- `Category.findOne({name: n, type: 'product'})`, first match. -/
def lookupCat : Cats → String → Option Int
  | [], _ => none
  | c :: cs, n => if c.1 = n then some c.2 else lookupCat cs n

/-- The stored usage count, reading a missing document as `0`. -/
def usageD (cs : Cats) (n : String) : Int :=
  (lookupCat cs n).getD 0

/-- Apply `$inc: {usageCount: d}` to the first document named `n` (the
`name` field carries a unique index, so at most one matches). -/
def incFirst : Cats → String → Int → Cats
  | [], _, _ => []
  | c :: cs, n, d => if c.1 = n then (c.1, c.2 + d) :: cs else c :: incFirst cs n d

/-- `Category.findOneAndUpdate({name, type:'product'}, {$inc:{usageCount:1},
$setOnInsert:{...}}, {upsert:true})`: increment if present, otherwise insert
a fresh document whose count is `1` (on upsert, `$inc` seeds the field with
the increment value). -/
def upsertInc (cs : Cats) (n : String) : Cats :=
  if (lookupCat cs n).isSome then incFirst cs n 1 else cs ++ [(n, 1)]

/-- `Category.findOneAndUpdate({name, type:'product'}, {$inc:{usageCount:-1}})`
with no upsert: a missing document is left missing. -/
def decIfExists (cs : Cats) (n : String) : Cats :=
  if (lookupCat cs n).isSome then incFirst cs n (-1) else cs

/-- `Product.findOne({_id: pid})`, first match. -/
def findProd : Prods → Nat → Option (Nat × String)
  | [], _ => none
  | p :: ps, pid => if p.1 = pid then some p else findProd ps pid

/-- `Product.findByIdAndDelete`: remove the first matching document. -/
def removeProd : Prods → Nat → Prods
  | [], _ => []
  | p :: ps, pid => if p.1 = pid then ps else p :: removeProd ps pid

/-- `Product.findByIdAndUpdate(pid, {$set:{category: c}})` restricted to its
effect on the `category` field of the first matching document. -/
def setCatFirst : Prods → Nat → String → Prods
  | [], _, _ => []
  | p :: ps, pid, c => if p.1 = pid then (p.1, c) :: ps else p :: setCatFirst ps pid c

/-- `Product.countDocuments({category: C})`. -/
def countCat (ps : Prods) (C : String) : Nat :=
  (ps.filter (fun p => p.2 = C)).length

/-- The create controller normalizes a falsy category to the sentinel:
`category: req.body.category || 'Uncategorized'`. -/
def normCat (c : String) : String :=
  if c = "" then sentinel else c

/-- The entity store visible to the synchronizer, plus the id counter the
document store uses to mint fresh `_id`s (ids are never reused). -/
structure Store where
  products : Prods
  categories : Cats
  nextId : Nat
  deriving Repr, DecidableEq

/-- Effect of `productSchema.post('save')` on the Category collection:
upsert-increment the saved document's category when it is truthy and not
the sentinel. -/
def postSaveHook (cs : Cats) (cat : String) : Cats :=
  if cat ≠ "" ∧ cat ≠ sentinel then upsertInc cs cat else cs

/-- `POST /products`: insert a product with a fresh id, then run the
post-save hook. -/
def createProduct (s : Store) (cat : String) : Store :=
  let c := normCat cat
  { products := s.products ++ [(s.nextId, c)]
    categories := postSaveHook s.categories c
    nextId := s.nextId + 1 }

/-- Effect of `productSchema.post('findOneAndDelete')` on the Category
collection, given the deleted document (if any was found). -/
def postDeleteHook (cs : Cats) (doc : Option (Nat × String)) : Cats :=
  match doc with
  | some d => if d.2 ≠ "" ∧ d.2 ≠ sentinel then decIfExists cs d.2 else cs
  | none => cs

/-- `DELETE /products/:id`: `findByIdAndDelete` plus its post hook. -/
def deleteProduct (s : Store) (pid : Nat) : Store :=
  let doc := findProd s.products pid
  { products := removeProd s.products pid
    categories := postDeleteHook s.categories doc
    nextId := s.nextId }

/-- Effect of `productSchema.pre('findOneAndUpdate')` on the Category
collection for an update `{$set: {category: newCat}}`: when the new value is
truthy, the targeted document exists, and its category actually changes,
decrement the old category (truthy, non-sentinel, no upsert) and
upsert-increment the new one (non-sentinel). -/
def preUpdateHook (s : Store) (pid : Nat) (newCat : String) : Cats :=
  if newCat ≠ "" then
    match findProd s.products pid with
    | some doc =>
      if doc.2 ≠ newCat then
        let cs1 := if doc.2 ≠ "" ∧ doc.2 ≠ sentinel
                   then decIfExists s.categories doc.2 else s.categories
        if newCat ≠ sentinel then upsertInc cs1 newCat else cs1
      else s.categories
    | none => s.categories
  else s.categories

/-- `PATCH /products/:id` with a `category` field: the pre hook runs, then
`findByIdAndUpdate` with `runValidators: true` applies the `$set` (an empty
category fails the `required` validator, so the document is not changed). -/
def recatProduct (s : Store) (pid : Nat) (newCat : String) : Store :=
  let cs := preUpdateHook s pid newCat
  if newCat ≠ "" then
    { products := setCatFirst s.products pid newCat
      categories := cs
      nextId := s.nextId }
  else
    { products := s.products, categories := cs, nextId := s.nextId }

/-- The sequential operation alphabet of the synchronizer. -/
inductive PEvent where
  | create (cat : String)
  | delete (pid : Nat)
  | recat (pid : Nat) (newCat : String)
  deriving Repr, DecidableEq

/-- One sequential operation against the store. -/
def stepOp (s : Store) : PEvent → Store
  | .create c => createProduct s c
  | .delete pid => deleteProduct s pid
  | .recat pid c => recatProduct s pid c

/-- Run a sequence of operations left to right. -/
def runOps (s : Store) : List PEvent → Store
  | [] => s
  | e :: es => runOps (stepOp s e) es

/-- The empty store. -/
def emptyStore : Store := ⟨[], [], 0⟩

/-- How one event counts toward category `C` per the specification's tally:
`+1` for a create into `C`, `-1` for a delete of a product currently in `C`,
`+1` for a recategorization into `C`, `-1` for a recategorization out of
`C`; an operation that does not change any product's category (missing id,
unchanged value, rejected empty value) affects no category. -/
def eventDelta (C : String) (s : Store) : PEvent → Int
  | .create c => if normCat c = C then 1 else 0
  | .delete pid =>
    match findProd s.products pid with
    | some d => if d.2 = C then -1 else 0
    | none => 0
  | .recat pid c =>
    if c ≠ "" then
      match findProd s.products pid with
      | some d =>
        if d.2 = c then 0
        else if c = C then 1
        else if d.2 = C then -1 else 0
      | none => 0
    else 0

/-- The net number of events affecting `C` along a run. -/
def netEvents (C : String) (s : Store) : List PEvent → Int
  | [] => 0
  | e :: es => eventDelta C s e + netEvents C (stepOp s e) es

/-! Lemmas about the Category collection primitives. -/

theorem lookupCat_incFirst_self (cs : Cats) (n : String) (d : Int) :
    lookupCat (incFirst cs n d) n = (lookupCat cs n).map (· + d) := by
  induction cs with
  | nil => rfl
  | cons c cs ih =>
    by_cases h : c.1 = n <;> simp [incFirst, lookupCat, h, ih]

theorem lookupCat_incFirst_ne (cs : Cats) (n m : String) (d : Int) (h : m ≠ n) :
    lookupCat (incFirst cs n d) m = lookupCat cs m := by
  induction cs with
  | nil => rfl
  | cons c cs ih =>
    have hnm : ¬ n = m := fun hnm => h hnm.symm
    by_cases hc : c.1 = n
    · simp [incFirst, lookupCat, hc, hnm]
    · by_cases hm : c.1 = m <;> simp [incFirst, lookupCat, hc, hm, h, ih]

theorem lookupCat_append (cs ds : Cats) (m : String) :
    lookupCat (cs ++ ds) m =
      match lookupCat cs m with
      | some v => some v
      | none => lookupCat ds m := by
  induction cs with
  | nil => rfl
  | cons c cs ih =>
    by_cases h : c.1 = m <;> simp [lookupCat, h, ih]

theorem lookupCat_upsertInc_self (cs : Cats) (n : String) :
    lookupCat (upsertInc cs n) n = some (usageD cs n + 1) := by
  unfold upsertInc usageD
  cases h : lookupCat cs n with
  | some v => simp [h, lookupCat_incFirst_self, Option.map]
  | none => simp [h, lookupCat_append, lookupCat]

theorem lookupCat_upsertInc_ne (cs : Cats) (n m : String) (h : m ≠ n) :
    lookupCat (upsertInc cs n) m = lookupCat cs m := by
  unfold upsertInc
  cases hl : lookupCat cs n with
  | some v => simp [lookupCat_incFirst_ne cs n m 1 h]
  | none =>
    simp only [hl, Option.isSome_none, Bool.false_eq_true, if_false, lookupCat_append]
    cases hm : lookupCat cs m with
    | some v => rfl
    | none =>
      have hnm : ¬ n = m := fun hnm => h hnm.symm
      simp [lookupCat, hnm]

theorem lookupCat_decIfExists_self (cs : Cats) (n : String) :
    lookupCat (decIfExists cs n) n = (lookupCat cs n).map (· - 1) := by
  unfold decIfExists
  cases h : lookupCat cs n with
  | some v =>
    have := lookupCat_incFirst_self cs n (-1)
    simp [h] at this ⊢
    simpa [sub_eq_add_neg] using this
  | none => simp [h]

theorem lookupCat_decIfExists_ne (cs : Cats) (n m : String) (h : m ≠ n) :
    lookupCat (decIfExists cs n) m = lookupCat cs m := by
  unfold decIfExists
  cases hl : lookupCat cs n with
  | some v => simp [lookupCat_incFirst_ne cs n m (-1) h]
  | none => simp

/-! Lemmas about the Product collection primitives. -/

theorem countCat_nil (C : String) : countCat [] C = 0 := rfl

theorem countCat_cons (p : Nat × String) (ps : Prods) (C : String) :
    countCat (p :: ps) C = (if p.2 = C then 1 else 0) + countCat ps C := by
  by_cases h : p.2 = C <;> simp [countCat, List.filter, h] <;> omega

theorem countCat_append (ps qs : Prods) (C : String) :
    countCat (ps ++ qs) C = countCat ps C + countCat qs C := by
  simp [countCat, List.filter_append]

theorem findProd_none_removeProd (ps : Prods) (pid : Nat)
    (h : findProd ps pid = none) : removeProd ps pid = ps := by
  induction ps with
  | nil => rfl
  | cons p ps ih =>
    by_cases hp : p.1 = pid
    · simp [findProd, hp] at h
    · simp [findProd, hp] at h
      simp [removeProd, hp, ih h]

theorem countCat_removeProd (ps : Prods) (pid : Nat) (C : String) :
    (countCat (removeProd ps pid) C : Int) =
      (countCat ps C : Int) -
        (match findProd ps pid with
         | some d => if d.2 = C then 1 else 0
         | none => 0) := by
  induction ps with
  | nil => rfl
  | cons p ps ih =>
    by_cases hp : p.1 = pid
    · simp only [removeProd, findProd, hp, if_true, countCat_cons]
      by_cases hc : p.2 = C <;> simp [hc] <;> omega
    · simp only [removeProd, findProd, hp, if_false, countCat_cons]
      push_cast
      linarith [ih]

theorem findProd_none_setCatFirst (ps : Prods) (pid : Nat) (c : String)
    (h : findProd ps pid = none) : setCatFirst ps pid c = ps := by
  induction ps with
  | nil => rfl
  | cons p ps ih =>
    by_cases hp : p.1 = pid
    · simp [findProd, hp] at h
    · simp [findProd, hp] at h
      simp [setCatFirst, hp, ih h]

theorem countCat_setCatFirst (ps : Prods) (pid : Nat) (c C : String) :
    (countCat (setCatFirst ps pid c) C : Int) =
      (countCat ps C : Int) +
        (match findProd ps pid with
         | some d => (if c = C then 1 else 0) - (if d.2 = C then 1 else 0)
         | none => 0) := by
  induction ps with
  | nil => rfl
  | cons p ps ih =>
    by_cases hp : p.1 = pid
    · simp only [setCatFirst, findProd, hp, if_true, countCat_cons]
      by_cases hc : p.2 = C <;> by_cases hcc : c = C <;> simp [hc, hcc] <;> omega
    · simp only [setCatFirst, findProd, hp, if_false, countCat_cons]
      push_cast
      linarith [ih]

theorem mem_of_findProd (ps : Prods) (pid : Nat) (d : Nat × String)
    (h : findProd ps pid = some d) : d ∈ ps := by
  induction ps with
  | nil => simp [findProd] at h
  | cons p ps ih =>
    by_cases hp : p.1 = pid
    · simp [findProd, hp] at h
      simp [h]
    · simp [findProd, hp] at h
      exact List.mem_cons_of_mem _ (ih h)

theorem countCat_pos_of_mem (ps : Prods) (d : Nat × String) (C : String)
    (hd : d ∈ ps) (hc : d.2 = C) : 0 < countCat ps C := by
  induction ps with
  | nil => simp at hd
  | cons p ps ih =>
    rw [countCat_cons]
    rcases List.mem_cons.mp hd with h | h
    · subst h; simp [hc]
    · have := ih h
      omega

theorem mem_setCatFirst (ps : Prods) (pid : Nat) (c : String) (q : Nat × String)
    (h : q ∈ setCatFirst ps pid c) : q ∈ ps ∨ q.2 = c := by
  induction ps with
  | nil => simp [setCatFirst] at h
  | cons p ps ih =>
    by_cases hp : p.1 = pid
    · simp only [setCatFirst, hp, if_true] at h
      rcases List.mem_cons.mp h with h | h
      · right; rw [h]
      · left; exact List.mem_cons_of_mem _ h
    · simp only [setCatFirst, hp, if_false] at h
      rcases List.mem_cons.mp h with h | h
      · left; simp [h]
      · rcases ih h with h | h
        · left; exact List.mem_cons_of_mem _ h
        · right; exact h

theorem mem_removeProd (ps : Prods) (pid : Nat) (q : Nat × String)
    (h : q ∈ removeProd ps pid) : q ∈ ps := by
  induction ps with
  | nil => simp [removeProd] at h
  | cons p ps ih =>
    by_cases hp : p.1 = pid
    · simp only [removeProd, hp, if_true] at h
      exact List.mem_cons_of_mem _ h
    · simp only [removeProd, hp, if_false] at h
      rcases List.mem_cons.mp h with h | h
      · simp [h]
      · exact List.mem_cons_of_mem _ (ih h)

/-! The synchronizer invariant and its preservation. -/

/-- Every stored product has a truthy (non-empty) category: the create
controller substitutes the sentinel for a falsy category and the patch
path rejects an empty one. -/
def Wf (s : Store) : Prop := ∀ p ∈ s.products, p.2 ≠ ""

/-- The usage-count invariant for a category name `C`: either the Category
document exists and stores exactly the number of products labelled `C`, or
it does not exist and no product is labelled `C`. -/
def InvC (C : String) (s : Store) : Prop :=
  lookupCat s.categories C = some (countCat s.products C : Int) ∨
    (lookupCat s.categories C = none ∧ countCat s.products C = 0)

theorem normCat_ne_empty (c : String) : normCat c ≠ "" := by
  unfold normCat
  by_cases h : c = ""
  · simp only [h, if_pos rfl]
    intro hs
    simp [sentinel] at hs
  · simp [h]

theorem usageD_eq_countCat (C : String) (s : Store) (hinv : InvC C s) :
    usageD s.categories C = (countCat s.products C : Int) := by
  rcases hinv with h | ⟨h1, h2⟩
  · simp [usageD, h]
  · simp [usageD, h1, h2]

theorem createProduct_invariant (C : String) (hC : C ≠ sentinel) (s : Store) (c : String)
    (hwf : Wf s) (hinv : InvC C s) :
    Wf (createProduct s c) ∧ InvC C (createProduct s c) ∧
      (countCat (createProduct s c).products C : Int) =
        (countCat s.products C : Int) + (if normCat c = C then 1 else 0) := by
  have hprods : (createProduct s c).products = s.products ++ [(s.nextId, normCat c)] := rfl
  have hcount : countCat (createProduct s c).products C
      = countCat s.products C + (if normCat c = C then 1 else 0) := by
    rw [hprods, countCat_append, countCat_cons, countCat_nil]
    simp
  refine ⟨?_, ?_, ?_⟩
  · intro p hp
    rw [hprods] at hp
    rcases List.mem_append.mp hp with h | h
    · exact hwf p h
    · rw [List.mem_singleton.mp h]
      exact normCat_ne_empty c
  · by_cases hcC : normCat c = C
    · have hne : normCat c ≠ "" := normCat_ne_empty c
      have hCne : C ≠ "" := hcC ▸ hne
      have hooks : (createProduct s c).categories = upsertInc s.categories C := by
        simp [createProduct, postSaveHook, hcC, hCne, hC]
      left
      rw [hooks, lookupCat_upsertInc_self, usageD_eq_countCat C s hinv, hcount, hcC]
      simp
    · have hcats : lookupCat (createProduct s c).categories C = lookupCat s.categories C := by
        simp only [createProduct, postSaveHook]
        split
        · exact lookupCat_upsertInc_ne _ _ _ (fun h => hcC h.symm)
        · rfl
      have hcnt : countCat (createProduct s c).products C = countCat s.products C := by
        rw [hcount]; simp [hcC]
      unfold InvC at hinv ⊢
      rw [hcats, hcnt]
      exact hinv
  · rw [hcount]
    by_cases hcC : normCat c = C <;> simp [hcC]

theorem deleteProduct_invariant (C : String) (hC : C ≠ sentinel) (s : Store) (pid : Nat)
    (hwf : Wf s) (hinv : InvC C s) :
    Wf (deleteProduct s pid) ∧ InvC C (deleteProduct s pid) ∧
      (countCat (deleteProduct s pid).products C : Int) =
        (countCat s.products C : Int) + eventDelta C s (.delete pid) := by
  have hwf2 : Wf (deleteProduct s pid) := by
    intro p hp
    exact hwf p (mem_removeProd _ _ _ hp)
  cases hfind : findProd s.products pid with
  | none =>
    have hprod : (deleteProduct s pid).products = s.products := by
      simp [deleteProduct, findProd_none_removeProd _ _ hfind]
    have hcats : (deleteProduct s pid).categories = s.categories := by
      simp [deleteProduct, hfind, postDeleteHook]
    refine ⟨hwf2, ?_, ?_⟩
    · unfold InvC at hinv ⊢
      rw [hprod, hcats]
      exact hinv
    · rw [hprod]
      simp [eventDelta, hfind]
  | some d =>
    have hdmem := mem_of_findProd _ _ _ hfind
    have hd2 : d.2 ≠ "" := hwf d hdmem
    have hcnt : (countCat (deleteProduct s pid).products C : Int)
        = (countCat s.products C : Int) - (if d.2 = C then 1 else 0) := by
      have : (deleteProduct s pid).products = removeProd s.products pid := rfl
      rw [this, countCat_removeProd, hfind]
    by_cases hdC : d.2 = C
    · have hCne : C ≠ "" := hdC ▸ hd2
      have hcats : (deleteProduct s pid).categories = decIfExists s.categories C := by
        simp [deleteProduct, postDeleteHook, hfind, hdC, hCne, hC]
      have hpos : 0 < countCat s.products C := countCat_pos_of_mem _ d C hdmem hdC
      rcases hinv with h | ⟨h1, h2⟩
      · refine ⟨hwf2, Or.inl ?_, ?_⟩
        · rw [hcats, lookupCat_decIfExists_self, h, hcnt]
          simp [hdC, sub_eq_add_neg]
        · rw [hcnt]
          simp [eventDelta, hfind, hdC]
          omega
      · omega
    · have hcats : lookupCat (deleteProduct s pid).categories C = lookupCat s.categories C := by
        simp only [deleteProduct, postDeleteHook, hfind]
        split
        · exact lookupCat_decIfExists_ne _ _ _ (fun h => hdC h.symm)
        · rfl
      have hcntN : countCat (deleteProduct s pid).products C = countCat s.products C := by
        have : (countCat (deleteProduct s pid).products C : Int) = (countCat s.products C : Int) := by
          rw [hcnt]; simp [hdC]
        exact_mod_cast this
      refine ⟨hwf2, ?_, ?_⟩
      · unfold InvC at hinv ⊢
        rw [hcats, hcntN]
        exact hinv
      · rw [hcntN]
        simp [eventDelta, hfind, hdC]

theorem recatProduct_invariant (C : String) (hC : C ≠ sentinel) (s : Store) (pid : Nat)
    (c : String) (hwf : Wf s) (hinv : InvC C s) :
    Wf (recatProduct s pid c) ∧ InvC C (recatProduct s pid c) ∧
      (countCat (recatProduct s pid c).products C : Int) =
        (countCat s.products C : Int) + eventDelta C s (.recat pid c) := by
  by_cases hc : c = ""
  · have hstore : recatProduct s pid c = s := by
      simp [recatProduct, preUpdateHook, hc]
    rw [hstore]
    exact ⟨hwf, hinv, by simp [eventDelta, hc]⟩
  · cases hfind : findProd s.products pid with
    | none =>
      have hstore : recatProduct s pid c = s := by
        simp [recatProduct, preUpdateHook, hc, hfind,
          findProd_none_setCatFirst _ _ c hfind]
      rw [hstore]
      exact ⟨hwf, hinv, by simp [eventDelta, hc, hfind]⟩
    | some d =>
      have hdmem := mem_of_findProd _ _ _ hfind
      have hd2 : d.2 ≠ "" := hwf d hdmem
      have hprods : (recatProduct s pid c).products = setCatFirst s.products pid c := by
        simp [recatProduct, hc]
      have hwf2 : Wf (recatProduct s pid c) := by
        intro p hp
        rw [hprods] at hp
        rcases mem_setCatFirst _ _ _ _ hp with h | h
        · exact hwf p h
        · rw [h]; exact hc
      have hcnt : (countCat (recatProduct s pid c).products C : Int) =
          (countCat s.products C : Int) +
            ((if c = C then 1 else 0) - (if d.2 = C then 1 else 0)) := by
        rw [hprods, countCat_setCatFirst, hfind]
      by_cases hdc : d.2 = c
      · have hcats : (recatProduct s pid c).categories = s.categories := by
          simp [recatProduct, preUpdateHook, hc, hfind, hdc]
        have hcntN : countCat (recatProduct s pid c).products C = countCat s.products C := by
          have : (countCat (recatProduct s pid c).products C : Int)
              = (countCat s.products C : Int) := by
            rw [hcnt, hdc]
            ring
          exact_mod_cast this
        refine ⟨hwf2, ?_, ?_⟩
        · unfold InvC at hinv ⊢
          rw [hcats, hcntN]
          exact hinv
        · rw [hcntN]
          simp [eventDelta, hc, hfind, hdc]
      · have hcats : (recatProduct s pid c).categories =
            (if c ≠ sentinel
             then upsertInc (if d.2 ≠ "" ∧ d.2 ≠ sentinel
                             then decIfExists s.categories d.2 else s.categories) c
             else (if d.2 ≠ "" ∧ d.2 ≠ sentinel
                   then decIfExists s.categories d.2 else s.categories)) := by
          simp [recatProduct, preUpdateHook, hc, hfind, hdc]
        have hdelta : eventDelta C s (.recat pid c) =
            (if c = C then 1 else 0) - (if d.2 = C then 1 else 0) := by
          simp only [eventDelta, hfind]
          rw [if_pos hc, if_neg hdc]
          by_cases h1 : c = C
          · have h2 : d.2 ≠ C := fun h => hdc (h.trans h1.symm)
            simp [h1, h2]
          · by_cases h2 : d.2 = C <;> simp [h1, h2]
        refine ⟨hwf2, ?_, by rw [hcnt, hdelta]⟩
        by_cases hcC : c = C
        · -- recategorization into C: upsert-increment at C
          have hdC : d.2 ≠ C := fun h => hdc (h.trans hcC.symm)
          have hcs2 : (recatProduct s pid c).categories =
              upsertInc (if d.2 ≠ "" ∧ d.2 ≠ sentinel
                         then decIfExists s.categories d.2 else s.categories) c := by
            rw [hcats]
            simp [hcC, hC]
          have hlook1 : lookupCat (if d.2 ≠ "" ∧ d.2 ≠ sentinel
              then decIfExists s.categories d.2 else s.categories) C
              = lookupCat s.categories C := by
            split
            · exact lookupCat_decIfExists_ne _ _ _ (fun h => hdC h.symm)
            · rfl
          left
          rw [hcs2]
          have hup : lookupCat (upsertInc (if d.2 ≠ "" ∧ d.2 ≠ sentinel
                then decIfExists s.categories d.2 else s.categories) c) C
              = some (usageD (if d.2 ≠ "" ∧ d.2 ≠ sentinel
                then decIfExists s.categories d.2 else s.categories) C + 1) := by
            rw [hcC]
            exact lookupCat_upsertInc_self _ _
          have husage : usageD (if d.2 ≠ "" ∧ d.2 ≠ sentinel
              then decIfExists s.categories d.2 else s.categories) C
              = (countCat s.products C : Int) := by
            rw [usageD, hlook1, ← usageD]
            exact usageD_eq_countCat C s hinv
          rw [hup, husage, hcnt]
          simp [hcC, hdC]
        · by_cases hdCC : d.2 = C
          · -- recategorization out of C: decrement at C
            have hCne : C ≠ "" := hdCC ▸ hd2
            have hpos : 0 < countCat s.products C := countCat_pos_of_mem _ d C hdmem hdCC
            rcases hinv with h | ⟨h1, h2⟩
            · left
              have hlookup1 : lookupCat (if d.2 ≠ "" ∧ d.2 ≠ sentinel
                  then decIfExists s.categories d.2 else s.categories) C
                  = some ((countCat s.products C : Int) - 1) := by
                rw [if_pos ⟨hd2, hdCC ▸ hC⟩, hdCC, lookupCat_decIfExists_self, h]
                rfl
              have hlookup2 : lookupCat (recatProduct s pid c).categories C =
                  lookupCat (if d.2 ≠ "" ∧ d.2 ≠ sentinel
                             then decIfExists s.categories d.2 else s.categories) C := by
                rw [hcats]
                split
                · exact lookupCat_upsertInc_ne _ _ _ (fun h => hcC h.symm)
                · rfl
              rw [hlookup2, hlookup1, hcnt]
              simp [hcC, hdCC, sub_eq_add_neg]
            · omega
          · -- C untouched by this recategorization
            have hlook : lookupCat (recatProduct s pid c).categories C
                = lookupCat s.categories C := by
              rw [hcats]
              have e1 : lookupCat (if d.2 ≠ "" ∧ d.2 ≠ sentinel
                  then decIfExists s.categories d.2 else s.categories) C
                  = lookupCat s.categories C := by
                split
                · exact lookupCat_decIfExists_ne _ _ _ (fun h => hdCC h.symm)
                · rfl
              split
              · rw [lookupCat_upsertInc_ne _ _ _ (fun h => hcC h.symm), e1]
              · exact e1
            have hcntN : countCat (recatProduct s pid c).products C
                = countCat s.products C := by
              have : (countCat (recatProduct s pid c).products C : Int)
                  = (countCat s.products C : Int) := by
                rw [hcnt]
                simp [hcC, hdCC]
              exact_mod_cast this
            unfold InvC at hinv ⊢
            rw [hlook, hcntN]
            exact hinv

/-- One sequential operation preserves well-formedness and the usage-count
invariant, and changes the reference count of `C` by exactly the event's
tally contribution. -/
theorem stepOp_invariant (C : String) (hC : C ≠ sentinel) (s : Store) (e : PEvent)
    (hwf : Wf s) (hinv : InvC C s) :
    Wf (stepOp s e) ∧ InvC C (stepOp s e) ∧
      (countCat (stepOp s e).products C : Int) =
        (countCat s.products C : Int) + eventDelta C s e := by
  cases e with
  | create c => exact createProduct_invariant C hC s c hwf hinv
  | delete pid => exact deleteProduct_invariant C hC s pid hwf hinv
  | recat pid c => exact recatProduct_invariant C hC s pid c hwf hinv

/-- Any sequential run preserves the invariant, and the reference count of
`C` moves by exactly the net event tally. -/
theorem runOps_invariant (C : String) (hC : C ≠ sentinel) (evs : List PEvent) :
    ∀ s : Store, Wf s → InvC C s →
      Wf (runOps s evs) ∧ InvC C (runOps s evs) ∧
        (countCat (runOps s evs).products C : Int) =
          (countCat s.products C : Int) + netEvents C s evs := by
  induction evs with
  | nil => intro s hwf hinv; exact ⟨hwf, hinv, by simp [runOps, netEvents]⟩
  | cons e es ih =>
    intro s hwf hinv
    obtain ⟨hwf1, hinv1, hcnt1⟩ := stepOp_invariant C hC s e hwf hinv
    obtain ⟨hwf2, hinv2, hcnt2⟩ := ih (stepOp s e) hwf1 hinv1
    refine ⟨hwf2, hinv2, ?_⟩
    show (countCat (runOps (stepOp s e) es).products C : Int) = _
    rw [hcnt2, hcnt1]
    show _ = (countCat s.products C : Int) + (eventDelta C s e + netEvents C (stepOp s e) es)
    ring

/-- C1: for every sequential (non-interleaved) sequence of product create,
delete, and recategorize operations starting from an empty store, and every
non-sentinel category `C` in the `type = "product"` namespace, the stored
`usageCount` of `C` afterwards (read as `0` when the document is absent)
equals the net number of (creates − deletes) + (recategorizations in −
recategorizations out) affecting `C`; moreover a creation into a
non-existent category `C` creates the Category document with
`usageCount = 1`. -/
theorem C1_usage_count_equals_net_events (evs : List PEvent) (C : String)
    (hC : C ≠ sentinel) :
    usageD (runOps emptyStore evs).categories C = netEvents C emptyStore evs ∧
      (∀ (s : Store) (c : String), lookupCat s.categories C = none → normCat c = C →
        lookupCat (createProduct s c).categories C = some 1) := by
  constructor
  · have h0wf : Wf emptyStore := by intro p hp; simp [emptyStore] at hp
    have h0inv : InvC C emptyStore := Or.inr ⟨rfl, rfl⟩
    obtain ⟨hwf, hinv, hcnt⟩ := runOps_invariant C hC evs emptyStore h0wf h0inv
    rw [usageD_eq_countCat C _ hinv, hcnt]
    show ((countCat ([] : Prods) C : Int)) + _ = _
    simp [countCat]
  · intro s c hnone hcC
    have hne : normCat c ≠ "" := normCat_ne_empty c
    have hCne : C ≠ "" := hcC ▸ hne
    have hooks : (createProduct s c).categories = upsertInc s.categories C := by
      simp [createProduct, postSaveHook, hcC, hCne, hC]
    rw [hooks, lookupCat_upsertInc_self, usageD, hnone]
    rfl

/-- Witness for C1 at a concrete run: two creations into "Pumps", one
deletion, one recategorization out to "Valves" leave usage 0 = net 0. -/
theorem C1_usage_count_equals_net_events_witness :
    ("Pumps" ≠ sentinel) ∧
      usageD (runOps emptyStore [.create "Pumps", .create "Pumps", .delete 0,
        .recat 1 "Valves"]).categories "Pumps" =
        netEvents "Pumps" emptyStore [.create "Pumps", .create "Pumps", .delete 0,
          .recat 1 "Valves"] :=
  ⟨by decide, (C1_usage_count_equals_net_events [.create "Pumps", .create "Pumps",
    .delete 0, .recat 1 "Valves"] "Pumps" (by decide)).1⟩

/-! Category controller: `updateCategory` (rename) and `deleteCategory`. -/

/-- A Category document as the category controller sees it. -/
structure CatDoc where
  cid : Nat
  name : String
  ctype : String
  usageCount : Int
  deriving Repr, DecidableEq

/-- The store as seen by the category controller. -/
structure AdminStore where
  products : Prods
  cats : List CatDoc
  deriving Repr, DecidableEq

/-- `Category.findById`. -/
def findCatById : List CatDoc → Nat → Option CatDoc
  | [], _ => none
  | c :: cs, id => if c.cid = id then some c else findCatById cs id

/-- `Category.findByIdAndDelete`: remove the first matching document. -/
def eraseCatById : List CatDoc → Nat → List CatDoc
  | [], _ => []
  | c :: cs, id => if c.cid = id then cs else c :: eraseCatById cs id

/-- `Category.findByIdAndUpdate(id, {name: n, ...})` restricted to its effect
on the `name` field (the update object carries no `usageCount`). -/
def renameCatById : List CatDoc → Nat → String → List CatDoc
  | [], _, _ => []
  | c :: cs, id, n => if c.cid = id then { c with name := n } :: cs else c :: renameCatById cs id n

/-- `deleteCategory` controller: 404 (`none`) for an unknown id; otherwise
count the referencing products, bulk-reassign them to the sentinel when the
count is positive, delete the Category document, and answer with
`{name, productsUpdated}`. -/
def deleteCategory (s : AdminStore) (id : Nat) : AdminStore × Option (String × Nat) :=
  match findCatById s.cats id with
  | none => (s, none)
  | some c =>
    let cnt := countCat s.products c.name
    let ps := if 0 < cnt
              then s.products.map (fun p => if p.2 = c.name then (p.1, sentinel) else p)
              else s.products
    ({ products := ps, cats := eraseCatById s.cats id }, some (c.name, cnt))

/-- Whitespace trimming as performed by the JavaScript `name.trim()`,
embedded structurally over the character list. -/
def jsTrim (s : String) : String :=
  ⟨((s.data.dropWhile Char.isWhitespace).reverse.dropWhile Char.isWhitespace).reverse⟩

/-- Lower-casing as performed by the case-insensitive `RegExp('^name$','i')`
duplicate check, embedded structurally over the character list. -/
def jsLower (s : String) : String :=
  ⟨s.data.map Char.toLower⟩

/-- `updateCategory` controller restricted to the rename path: reject an
empty trimmed name and unknown ids; reject a case-insensitive duplicate name
among the other categories of the same type; otherwise rename the document
and, when the name actually changed, bulk-relabel every referencing
product.  The boolean is the `success` flag of the response. -/
def updateCategory (s : AdminStore) (id : Nat) (name : String) : AdminStore × Bool :=
  if jsTrim name = "" then (s, false)
  else
    match findCatById s.cats id with
    | none => (s, false)
    | some c =>
      let newName := jsTrim name
      if jsLower c.name ≠ jsLower newName ∧
         s.cats.any (fun d => d.cid ≠ c.cid ∧ jsLower d.name = jsLower newName ∧
           d.ctype = c.ctype)
      then (s, false)
      else
        let cats2 := renameCatById s.cats id newName
        let ps := if c.name ≠ newName
                  then s.products.map (fun p => if p.2 = c.name then (p.1, newName) else p)
                  else s.products
        ({ products := ps, cats := cats2 }, true)

theorem findCatById_eq_none_of_not_mem (cs : List CatDoc) (id : Nat)
    (h : id ∉ cs.map (·.cid)) : findCatById cs id = none := by
  induction cs with
  | nil => rfl
  | cons c cs ih =>
    simp only [List.map_cons, List.mem_cons] at h
    push_neg at h
    simp only [findCatById]
    rw [if_neg (fun hc => h.1 hc.symm)]
    exact ih h.2

theorem findCatById_eraseCatById (cs : List CatDoc) (id : Nat)
    (hnodup : (cs.map (·.cid)).Nodup) : findCatById (eraseCatById cs id) id = none := by
  induction cs with
  | nil => rfl
  | cons c cs ih =>
    simp only [List.map_cons, List.nodup_cons] at hnodup
    by_cases hc : c.cid = id
    · simp only [eraseCatById, hc, if_true]
      exact findCatById_eq_none_of_not_mem cs id (hc ▸ hnodup.1)
    · simp only [eraseCatById, hc, if_false, findCatById]
      exact ih hnodup.2

theorem findCatById_renameCatById (cs : List CatDoc) (id : Nat) (n : String)
    (c : CatDoc) (hfind : findCatById cs id = some c) :
    findCatById (renameCatById cs id n) id = some { c with name := n } := by
  induction cs with
  | nil => simp [findCatById] at hfind
  | cons d cs ih =>
    by_cases hd : d.cid = id
    · simp only [findCatById, hd, if_true, Option.some.injEq] at hfind
      subst hfind
      simp [renameCatById, hd, findCatById]
    · simp only [findCatById, hd, if_false] at hfind
      simp only [renameCatById, hd, if_false, findCatById]
      exact ih hfind

/-- C2: for every existing Category, `deleteCategory` reassigns every
product whose category equals that Category's name to the sentinel
"Uncategorized", keeps every other product as is, removes the Category
document, and returns `productsUpdated` equal to the exact number of
referencing products. -/
theorem C2_deleteCategory_reassigns_and_reports (s : AdminStore) (id : Nat) (c : CatDoc)
    (hfind : findCatById s.cats id = some c)
    (hnodup : (s.cats.map (·.cid)).Nodup) :
    (deleteCategory s id).2 = some (c.name, countCat s.products c.name) ∧
      (∀ p ∈ s.products, p.2 = c.name → (p.1, sentinel) ∈ (deleteCategory s id).1.products) ∧
      (∀ p ∈ s.products, p.2 ≠ c.name → p ∈ (deleteCategory s id).1.products) ∧
      findCatById (deleteCategory s id).1.cats id = none := by
  have hres : deleteCategory s id =
      ({ products := if 0 < countCat s.products c.name
                     then s.products.map (fun p => if p.2 = c.name then (p.1, sentinel) else p)
                     else s.products,
         cats := eraseCatById s.cats id }, some (c.name, countCat s.products c.name)) := by
    simp [deleteCategory, hfind]
  refine ⟨by rw [hres], ?_, ?_, ?_⟩
  · intro p hp hpc
    have hpos : 0 < countCat s.products c.name := countCat_pos_of_mem _ p c.name hp hpc
    rw [hres]
    simp only [if_pos hpos]
    have := List.mem_map_of_mem (fun p => if p.2 = c.name then (p.1, sentinel) else p) hp
    simpa [hpc] using this
  · intro p hp hpc
    rw [hres]
    by_cases hpos : 0 < countCat s.products c.name
    · simp only [if_pos hpos]
      have := List.mem_map_of_mem (fun p => if p.2 = c.name then (p.1, sentinel) else p) hp
      simpa [hpc] using this
    · simp only [if_neg hpos]
      exact hp
  · rw [hres]
    exact findCatById_eraseCatById s.cats id hnodup

/-- Witness for C2 at a concrete store: category 7 named "Pumps" with two
referencing products and one unrelated product. -/
theorem C2_deleteCategory_reassigns_and_reports_witness :
    (deleteCategory ⟨[(0, "Pumps"), (1, "Valves"), (2, "Pumps")],
        [⟨7, "Pumps", "product", 2⟩]⟩ 7).2 = some ("Pumps", 2) :=
  (C2_deleteCategory_reassigns_and_reports
    ⟨[(0, "Pumps"), (1, "Valves"), (2, "Pumps")], [⟨7, "Pumps", "product", 2⟩]⟩ 7
    ⟨7, "Pumps", "product", 2⟩ (by decide) (by decide)).1

/-- C3: a successful rename of category `c` to a distinct trimmed name
leaves no product labelled with the old name, relabels every formerly-old
product to the new name, keeps every other product as is, and leaves the
renamed Category's `usageCount` unchanged. -/
theorem C3_rename_relabels_products (s : AdminStore) (id : Nat) (c : CatDoc)
    (name : String) (hfind : findCatById s.cats id = some c)
    (hok : (updateCategory s id name).2 = true)
    (hne : c.name ≠ jsTrim name) :
    (∀ p ∈ (updateCategory s id name).1.products, p.2 ≠ c.name) ∧
      (∀ p ∈ s.products, p.2 = c.name → (p.1, jsTrim name) ∈ (updateCategory s id name).1.products) ∧
      (∀ p ∈ s.products, p.2 ≠ c.name → p ∈ (updateCategory s id name).1.products) ∧
      findCatById (updateCategory s id name).1.cats id =
        some { c with name := jsTrim name } := by
  have htrim : ¬ jsTrim name = "" := by
    intro h
    simp [updateCategory, h] at hok
  have hres : (updateCategory s id name).1 =
      { products := s.products.map (fun p => if p.2 = c.name then (p.1, jsTrim name) else p),
        cats := renameCatById s.cats id (jsTrim name) } := by
    unfold updateCategory at hok ⊢
    rw [if_neg htrim] at hok ⊢
    simp only [hfind] at hok ⊢
    split at hok
    next hcond => simp at hok
    next hcond =>
      rw [if_neg hcond]
      simp [hne]
  refine ⟨?_, ?_, ?_, ?_⟩
  · intro p hp
    rw [hres] at hp
    rcases List.mem_map.mp hp with ⟨q, _, hq⟩
    by_cases hqc : q.2 = c.name
    · rw [← hq]
      simp [hqc]
      exact fun h => hne h.symm
    · rw [← hq]
      simp [hqc]
  · intro p hp hpc
    rw [hres]
    have := List.mem_map_of_mem (fun p => if p.2 = c.name then (p.1, jsTrim name) else p) hp
    simpa [hpc] using this
  · intro p hp hpc
    rw [hres]
    have := List.mem_map_of_mem (fun p => if p.2 = c.name then (p.1, jsTrim name) else p) hp
    simpa [hpc] using this
  · rw [hres]
    exact findCatById_renameCatById s.cats id (jsTrim name) c hfind

/-- Witness for C3 at a concrete store: rename "Pumps" (usage 2) to
"Valves"; the relabelled products and unchanged usageCount are observable. -/
theorem C3_rename_relabels_products_witness :
    findCatById (updateCategory ⟨[(0, "Pumps"), (1, "Other")],
        [⟨7, "Pumps", "product", 2⟩]⟩ 7 "Valves").1.cats 7 =
      some { (⟨7, "Pumps", "product", 2⟩ : CatDoc) with name := jsTrim "Valves" } :=
  (C3_rename_relabels_products ⟨[(0, "Pumps"), (1, "Other")],
    [⟨7, "Pumps", "product", 2⟩]⟩ 7 ⟨7, "Pumps", "product", 2⟩ "Valves"
    (by decide) (by decide) (by decide)).2.2.2

/-! Dashboard aggregation helpers (`dashboardController.js`). -/

/-- Milliseconds per calendar day. -/
def msPerDay : Int := 86400000

/-- Midnight of the calendar day containing `t`: the effect of
`setHours(0, 0, 0, 0)` on a date, with flooring division. -/
def midnight (t : Int) : Int := msPerDay * Int.fdiv t msPerDay

/-- `Model.countDocuments({createdAt: {$gte: dayStart, $lte: dayEnd}})` for
the calendar day `i` days after `startDate`, where `dayEnd` is
`dayStart.setHours(23,59,59,999)`. -/
def dayCount (docs : List Int) (startDate : Int) (i : Nat) : Int :=
  let dayStart := midnight (startDate + (i : Int) * msPerDay)
  let dayEnd := dayStart + msPerDay - 1
  ((docs.filter (fun t => dayStart ≤ t ∧ t ≤ dayEnd)).length : Int)

/-- `generateTrend(Model, startDate, filter)`: the loop runs `i` from
`days - 1 = 6` down to `0`, pushing the count for the day `startDate + i`
days each iteration. -/
def generateTrend (docs : List Int) (startDate : Int) : List Int :=
  ((List.range 7).reverse).map (fun i => dayCount docs startDate i)

/-- The `timeRange` switch computing `startDate` (default branch: 7 days). -/
def startDateFor (timeRange : String) (now : Int) : Int :=
  if timeRange = "7days" then now - 7 * msPerDay
  else if timeRange = "30days" then now - 30 * msPerDay
  else if timeRange = "90days" then now - 90 * msPerDay
  else now - 7 * msPerDay

/-- The creation timestamps the four metric cards draw on; services carry
their status so the Active Services filter can apply. -/
structure DashDB where
  productDates : List Int
  serviceDocs : List (String × Int)
  galleryDates : List Int
  enquiryDates : List Int
  deriving Repr, DecidableEq

/-- Services counted by the Active Services card:
`status: {$in: ['Active', 'Featured']}`. -/
def activeServiceDates (db : DashDB) : List Int :=
  (db.serviceDocs.filter (fun sd => sd.1 = "Active" ∨ sd.1 = "Featured")).map (·.2)

/-- The four metric-card trend arrays of the stats response, in response
order: products, active services, gallery images, new enquiries. -/
def dashboardTrends (db : DashDB) (timeRange : String) (now : Int) : List (List Int) :=
  [generateTrend db.productDates (startDateFor timeRange now),
   generateTrend (activeServiceDates db) (startDateFor timeRange now),
   generateTrend db.galleryDates (startDateFor timeRange now),
   generateTrend db.enquiryDates (startDateFor timeRange now)]

/-- C4: for every requested timeRange (7days, 30days, 90days, or any other
value) each of the four metric-card trend arrays has exactly 7 elements. -/
theorem C4_trends_have_seven_points (db : DashDB) (timeRange : String) (now : Int) :
    ∀ t ∈ dashboardTrends db timeRange now, t.length = 7 := by
  intro t ht
  simp only [dashboardTrends, List.mem_cons, List.not_mem_nil, or_false] at ht
  rcases ht with h | h | h | h <;> subst h <;>
    simp [generateTrend]

/-- Witness for C4: the enquiry-card trend of an empty database over a
30-day range is in the response and has 7 entries. -/
theorem C4_trends_have_seven_points_witness :
    generateTrend [] (startDateFor "30days" 0) ∈ dashboardTrends ⟨[], [], [], []⟩ "30days" 0 ∧
      (generateTrend [] (startDateFor "30days" 0)).length = 7 :=
  ⟨by decide, C4_trends_have_seven_points ⟨[], [], [], []⟩ "30days" 0 _ (by decide)⟩

/-- C5 counterexample: with a single document created on the `startDate`
day itself, the produced trend is `[0,0,0,0,0,0,1]`: its element 0 is not
the count for the earliest day of the covered span (that count is 1), so
the oldest-to-newest ordering stated by the claim is false. -/
theorem C5_counterexample_trend_not_oldest_first :
    ¬ ((generateTrend [42] 0).headI = dayCount [42] 0 0 ∧
       (generateTrend [42] 0).getLast? = some (dayCount [42] 0 6)) := by
  decide

/-- C5 (amended): the trend series is ordered newest-to-oldest: element `j`
is the count for the calendar day `startDate + (6 - j)` days, so element 0
covers the most recent day of the 7-day span starting at `startDate` and
the last element covers `startDate`'s own day. -/
theorem C5_trend_is_newest_to_oldest (docs : List Int) (startDate : Int)
    (j : Nat) (hj : j < 7) :
    (generateTrend docs startDate).getD j 0 = dayCount docs startDate (6 - j) := by
  have hrange : (List.range 7).reverse = [6, 5, 4, 3, 2, 1, 0] := by decide
  rw [generateTrend, hrange]
  interval_cases j <;> rfl

/-- Witness for C5 (amended) at `j = 0`: element 0 is the most recent
day's count. -/
theorem C5_trend_is_newest_to_oldest_witness :
    (0 < 7) ∧ (generateTrend [42] 0).getD 0 0 = dayCount [42] 0 (6 - 0) :=
  ⟨by decide, C5_trend_is_newest_to_oldest [42] 0 0 (by decide)⟩

/-- `Math.round`: round half toward positive infinity. -/
def jsRound (q : ℚ) : Int := ⌊q + 1 / 2⌋

/-- `calculateChange(current, previous)` from the dashboard controller. -/
def calculateChange (current previous : Nat) : Int :=
  if previous = 0 then (if 0 < current then 100 else 0)
  else jsRound (((current : ℚ) - (previous : ℚ)) / (previous : ℚ) * 100)

/-- C6: the percentage change is exactly 100 when the previous count is 0
and the current count is positive, exactly 0 when both are 0, and the
rounded relative change otherwise. -/
theorem C6_calculateChange_cases (current previous : Nat) :
    (previous = 0 → 0 < current → calculateChange current previous = 100) ∧
      (previous = 0 → current = 0 → calculateChange current previous = 0) ∧
      (previous ≠ 0 → calculateChange current previous =
        jsRound (((current : ℚ) - (previous : ℚ)) / (previous : ℚ) * 100)) := by
  refine ⟨?_, ?_, ?_⟩
  · intro h1 h2
    simp [calculateChange, h1, h2]
  · intro h1 h2
    simp [calculateChange, h1, h2]
  · intro h1
    simp [calculateChange, h1]

/-- Witness for C6 at (3, 0), (0, 0) and (3, 2). -/
theorem C6_calculateChange_cases_witness :
    calculateChange 3 0 = 100 ∧ calculateChange 0 0 = 0 ∧
      calculateChange 3 2 = jsRound (((3 : ℚ) - (2 : ℚ)) / (2 : ℚ) * 100) :=
  ⟨(C6_calculateChange_cases 3 0).1 rfl (by decide),
   (C6_calculateChange_cases 0 0).2.1 rfl rfl,
   (C6_calculateChange_cases 3 2).2.2 (by decide)⟩

/-! Enquiry response sub-ledger (`addResponse`) and success rate. -/

/-- An enquiry restricted to the fields the claims consult: its status and
its embedded response messages. -/
structure Enquiry where
  status : String
  responses : List String
  deriving Repr, DecidableEq

/-- `addResponse` controller acting on a found enquiry: 400 (`none`) when
the message is falsy; otherwise push the response and promote a "new"
status to "in-progress". -/
def addResponse (e : Enquiry) (msg : String) : Option Enquiry :=
  if msg = "" then none
  else some { status := if e.status = "new" then "in-progress" else e.status,
              responses := e.responses ++ [msg] }

/-- Sequentially apply `addResponse`; a rejected call leaves the enquiry
unchanged. -/
def addResponses (e : Enquiry) (msgs : List String) : Enquiry :=
  msgs.foldl (fun a m => (addResponse a m).getD a) e

theorem addResponse_status_frozen (e : Enquiry) (m : String) (h : e.status ≠ "new") :
    ((addResponse e m).getD e).status = e.status := by
  unfold addResponse
  by_cases hm : m = "" <;> simp [hm, h]

theorem addResponses_status_frozen (msgs : List String) :
    ∀ e : Enquiry, e.status ≠ "new" → (addResponses e msgs).status = e.status := by
  induction msgs with
  | nil => intro e _; rfl
  | cons m msgs ih =>
    intro e he
    show (addResponses ((addResponse e m).getD e) msgs).status = e.status
    rw [ih _ (by rw [addResponse_status_frozen e m he]; exact he),
      addResponse_status_frozen e m he]

/-- C7: appending a response to an enquiry whose status is "new" promotes
the status to "in-progress"; any number of further responses leave it at
"in-progress"; and appending a response to an enquiry whose status is not
"new" never changes the status — so the promotion happens exactly once, on
the first response. -/
theorem C7_first_response_promotes_once (e : Enquiry) (m : String)
    (hm : m ≠ "") (hnew : e.status = "new") (rest : List String) :
    ((addResponse e m).getD e).status = "in-progress" ∧
      (addResponses ((addResponse e m).getD e) rest).status = "in-progress" ∧
      (∀ (e2 : Enquiry) (m2 : String), e2.status ≠ "new" →
        ((addResponse e2 m2).getD e2).status = e2.status) := by
  have hstep : ((addResponse e m).getD e).status = "in-progress" := by
    simp [addResponse, hm, hnew]
  refine ⟨hstep, ?_, fun e2 m2 h2 => addResponse_status_frozen e2 m2 h2⟩
  rw [addResponses_status_frozen rest _ (by rw [hstep]; decide), hstep]

/-- Witness for C7: a fresh "new" enquiry answered once and then twice
more stays "in-progress". -/
theorem C7_first_response_promotes_once_witness :
    ((addResponse ⟨"new", []⟩ "hello").getD ⟨"new", []⟩).status = "in-progress" ∧
      (addResponses ((addResponse ⟨"new", []⟩ "hello").getD ⟨"new", []⟩)
        ["again", "more"]).status = "in-progress" ∧
      (∀ (e2 : Enquiry) (m2 : String), e2.status ≠ "new" →
        ((addResponse e2 m2).getD e2).status = e2.status) :=
  C7_first_response_promotes_once ⟨"new", []⟩ "hello" (by decide) rfl ["again", "more"]

/-- `calculateSuccessRate`: resolved enquiries over all enquiries as a
rounded percentage, with the fixed placeholder 98 when no enquiry exists. -/
def calculateSuccessRate (es : List Enquiry) : Int :=
  let total := es.length
  let resolved := (es.filter (fun e => e.status = "resolved")).length
  if total = 0 then 98 else jsRound ((resolved : ℚ) / (total : ℚ) * 100)

/-- C8: with zero enquiries the success rate is the fixed placeholder 98
(not zero, and no division is attempted since the function is total); with
at least one enquiry it is round(resolved ÷ total × 100). -/
theorem C8_success_rate_total_safe (es : List Enquiry) :
    (es = [] → calculateSuccessRate es = 98 ∧ calculateSuccessRate es ≠ 0) ∧
      (es ≠ [] → calculateSuccessRate es =
        jsRound (((es.filter (fun e => e.status = "resolved")).length : ℚ) /
          (es.length : ℚ) * 100)) := by
  constructor
  · intro h
    subst h
    exact ⟨rfl, by decide⟩
  · intro h
    have hlen : es.length ≠ 0 := fun hl => h (List.length_eq_zero.mp hl)
    simp [calculateSuccessRate, hlen]

/-- Witness for C8 at the empty list and at a one-element list. -/
theorem C8_success_rate_total_safe_witness :
    (calculateSuccessRate [] = 98 ∧ calculateSuccessRate [] ≠ 0) ∧
      calculateSuccessRate [⟨"resolved", []⟩] =
        jsRound ((([⟨"resolved", []⟩] : List Enquiry).filter
          (fun e => e.status = "resolved")).length /
          (([⟨"resolved", []⟩] : List Enquiry).length : ℚ) * 100) :=
  ⟨(C8_success_rate_total_safe []).1 rfl,
   (C8_success_rate_total_safe [⟨"resolved", []⟩]).2 (by decide)⟩

/-! Failure injection for the synchronizer hooks (C9) and bulk delete
(C10). -/

/-- `post('save')` with an injected failure: `failPoint = 1` makes the
single category write throw before persisting; the surrounding catch
swallows the error, so the hook still returns. -/
def postSaveHookF (cs : Cats) (cat : String) (failPoint : Nat) : Cats :=
  if failPoint = 1 then cs else postSaveHook cs cat

/-- `POST /products` with an injected hook failure.  The boolean is the
`success` flag of the response: the product document is inserted before the
post hook runs, and the hook's catch keeps any hook error from reaching the
response. -/
def createProductF (s : Store) (cat : String) (failPoint : Nat) : Store × Bool :=
  ({ products := s.products ++ [(s.nextId, normCat cat)]
     categories := postSaveHookF s.categories (normCat cat) failPoint
     nextId := s.nextId + 1 }, true)

/-- `pre('findOneAndUpdate')` with an injected failure: `failPoint = 1`
throws before any category write, `failPoint = 2` throws after the
decrement and before the upsert-increment (the decrement persists); the
catch swallows the error and `next()` still runs. -/
def preUpdateHookF (s : Store) (pid : Nat) (newCat : String) (failPoint : Nat) : Cats :=
  if failPoint = 1 then s.categories
  else if failPoint = 2 then
    (if newCat ≠ "" then
      match findProd s.products pid with
      | some doc =>
        if doc.2 ≠ newCat then
          (if doc.2 ≠ "" ∧ doc.2 ≠ sentinel
           then decIfExists s.categories doc.2 else s.categories)
        else s.categories
      | none => s.categories
     else s.categories)
  else preUpdateHook s pid newCat

/-- `PATCH /products/:id` (category change) with an injected hook failure:
the update itself still executes after the hook's catch. -/
def recatProductF (s : Store) (pid : Nat) (newCat : String) (failPoint : Nat) :
    Store × Bool :=
  if newCat ≠ "" then
    ({ products := setCatFirst s.products pid newCat
       categories := preUpdateHookF s pid newCat failPoint
       nextId := s.nextId }, true)
  else
    ({ products := s.products
       categories := preUpdateHookF s pid newCat failPoint
       nextId := s.nextId }, true)

/-- `post('findOneAndDelete')` with an injected failure. -/
def postDeleteHookF (cs : Cats) (doc : Option (Nat × String)) (failPoint : Nat) : Cats :=
  if failPoint = 1 then cs else postDeleteHook cs doc

/-- `DELETE /products/:id` with an injected hook failure: the document is
already deleted when the post hook runs. -/
def deleteProductF (s : Store) (pid : Nat) (failPoint : Nat) : Store × Bool :=
  ({ products := removeProd s.products pid
     categories := postDeleteHookF s.categories (findProd s.products pid) failPoint
     nextId := s.nextId }, true)

/-- C9: for create, category-changing update, and delete, an injected
failure anywhere in the category usage-maintenance step never fails the
primary product mutation: the response stays successful, the Product
collection ends exactly as in the unfailed run, and with no failure the
operation coincides with the plain one. -/
theorem C9_hook_failures_never_abort (s : Store) (cat : String) (pid qid : Nat)
    (nc : String) (failPoint : Nat) :
    ((createProductF s cat failPoint).2 = true ∧
       (createProductF s cat failPoint).1.products = (createProduct s cat).products ∧
       (createProductF s cat 0).1 = createProduct s cat) ∧
      ((recatProductF s pid nc failPoint).2 = true ∧
       (recatProductF s pid nc failPoint).1.products = (recatProduct s pid nc).products ∧
       (recatProductF s pid nc 0).1 = recatProduct s pid nc) ∧
      ((deleteProductF s qid failPoint).2 = true ∧
       (deleteProductF s qid failPoint).1.products = (deleteProduct s qid).products ∧
       (deleteProductF s qid 0).1 = deleteProduct s qid) := by
  refine ⟨⟨rfl, rfl, ?_⟩, ⟨?_, ?_, ?_⟩, rfl, rfl, ?_⟩
  · simp [createProductF, createProduct, postSaveHookF]
  · unfold recatProductF
    split <;> rfl
  · unfold recatProductF recatProduct
    split <;> rfl
  · unfold recatProductF recatProduct preUpdateHookF
    split <;> rfl
  · simp [deleteProductF, deleteProduct, postDeleteHookF]

/-- `bulkDelete` controller: 400 (`false`) when the id array is empty,
otherwise `Product.deleteMany({_id: {$in: ids}})`.  `deleteMany` fires no
per-document middleware, so the Category collection is untouched. -/
def bulkDelete (s : Store) (ids : List Nat) : Store × Bool :=
  if ids = [] then (s, false)
  else ({ products := s.products.filter (fun p => ¬ p.1 ∈ ids)
          categories := s.categories
          nextId := s.nextId }, true)

theorem countCat_filter_le (ps : Prods) (f : Nat × String → Bool) (C : String) :
    countCat (ps.filter f) C ≤ countCat ps C :=
  List.Sublist.length_le (List.Sublist.filter _ (List.filter_sublist ps))

theorem countCat_filter_lt (ps : Prods) (f : Nat × String → Bool) (C : String)
    (p : Nat × String) (hp : p ∈ ps) (hpc : p.2 = C) (hf : f p = false) :
    countCat (ps.filter f) C < countCat ps C := by
  induction ps with
  | nil => simp at hp
  | cons q ps ih =>
    rcases List.mem_cons.mp hp with h | h
    · subst h
      rw [List.filter_cons, hf]
      calc countCat (ps.filter f) C ≤ countCat ps C := countCat_filter_le ps f C
        _ < countCat (p :: ps) C := by rw [countCat_cons, if_pos hpc]; omega
    · have hlt := ih h
      by_cases hq : f q = true
      · rw [List.filter_cons, if_pos hq, countCat_cons, countCat_cons]
        omega
      · rw [List.filter_cons, if_neg hq]
        calc countCat (ps.filter f) C < countCat ps C := hlt
          _ ≤ countCat (q :: ps) C := by rw [countCat_cons]; omega

/-- C10: a bulk delete leaves every Category document completely
unchanged, and if some deleted product belonged to a non-sentinel category
`C` whose usage count was accurate beforehand, the count no longer equals
the number of referencing products afterwards. -/
theorem C10_bulkDelete_skips_usage_maintenance (s : Store) (ids : List Nat)
    (C : String) (hne : ids ≠ [])
    (hinv : usageD s.categories C = (countCat s.products C : Int))
    (p : Nat × String) (hp : p ∈ s.products) (hpid : p.1 ∈ ids) (hpc : p.2 = C) :
    (bulkDelete s ids).1.categories = s.categories ∧
      usageD (bulkDelete s ids).1.categories C ≠
        (countCat (bulkDelete s ids).1.products C : Int) := by
  have hres : (bulkDelete s ids).1 =
      { products := s.products.filter (fun p => ¬ p.1 ∈ ids)
        categories := s.categories
        nextId := s.nextId } := by
    simp [bulkDelete, hne]
  refine ⟨by rw [hres], ?_⟩
  have hlt : countCat (s.products.filter (fun p => ¬ p.1 ∈ ids)) C <
      countCat s.products C :=
    countCat_filter_lt s.products _ C p hp hpc (by simp [hpid])
  rw [hres, hinv]
  intro hcontra
  have : countCat s.products C = countCat (s.products.filter (fun p => ¬ p.1 ∈ ids)) C := by
    exact_mod_cast hcontra
  omega

/-- Witness for C10: bulk-deleting the only "Pumps" product leaves the
"Pumps" usage count at 1 while no product references it. -/
theorem C10_bulkDelete_skips_usage_maintenance_witness :
    (bulkDelete ⟨[(0, "Pumps")], [("Pumps", 1)], 1⟩ [0]).1.categories =
        (⟨[(0, "Pumps")], [("Pumps", 1)], 1⟩ : Store).categories ∧
      usageD (bulkDelete ⟨[(0, "Pumps")], [("Pumps", 1)], 1⟩ [0]).1.categories "Pumps" ≠
        (countCat (bulkDelete ⟨[(0, "Pumps")], [("Pumps", 1)], 1⟩ [0]).1.products "Pumps" : Int) :=
  C10_bulkDelete_skips_usage_maintenance ⟨[(0, "Pumps")], [("Pumps", 1)], 1⟩ [0] "Pumps"
    (by decide) (by decide) (0, "Pumps") (by decide) (by decide) (by decide)

end YashEng
